import Mathlib

/-!
Shallow embedding of the `not-for-prod/crypto` HD-wallet library.

The repository is a thin pipeline over external cryptographic primitives
(BIP39 mnemonic validation, PBKDF2 seed derivation, BIP32 child-key
derivation, secp256k1 scalar multiplication, Keccak-256, SHA-256 and
Base58).  Following the repository's own architecture, those primitives are
modelled as explicit function parameters, while every line of the
repository's own code is translated faithfully:

* `DeriveKeyFromPath`    embeds `src/bip44.go` (five sequential child
  derivations with early error return; Go `uint32` addition is modelled as
  addition followed by reduction modulo 2^32),
* `GenerateKeysFromMnemonic` embeds `src/unnamed/part_000` (validate, seed
  with empty passphrase, master key, path derivation, key-pair extraction),
* `GenerateTronAddress`  embeds `src/tron.go` (version byte 0x41, trailing
  20 bytes of the Keccak digest, double-SHA-256 checksum, Base58),
* `base58Encode` / `base58Decode` embed the btcsuite Base58 encoder and
  decoder actually linked by `tron.go`: the byte string is read as a
  big-endian natural number, written in base 58 via repeated division, and
  one alphabet character `1` is prepended per leading zero byte.
-/

namespace HDWallet

/-- Extended key as used by the repository: the code only ever reads the
32-byte private key material (`key.Key` in Go) and threads the rest of the
BIP32 structure opaquely, so the chain code is carried but never inspected. -/
structure BKey where
  key : List Nat
  chainCode : List Nat
  deriving DecidableEq

/-- Hardened derivation offset, `HardenedOffset uint32 = 0x80000000` in
`src/bip44.go`. -/
def HardenedOffset : Nat := 0x80000000

/-- BIP44 purpose constant, `Purpose uint32 = 44` in `src/bip44.go`. -/
def Purpose : Nat := 44

/-- Go `uint32` addition of `HardenedOffset` to an index, as performed at
the first three path levels of `DeriveKeyFromPath`: the sum wraps modulo
2^32. -/
def hardIndex (i : Nat) : Nat := (i + HardenedOffset) % 2 ^ 32

/-- Faithful translation of `DeriveKeyFromPath` from `src/bip44.go`: five
sequential `NewChildKey` calls, each followed by an `if err != nil` early
return.  The BIP32 child-derivation primitive `newChildKey` is an external
collaborator and is passed in as a function. -/
def DeriveKeyFromPath {E : Type} (newChildKey : BKey → Nat → Except E BKey)
    (masterKey : BKey) (coin account chain address : Nat) : Except E BKey :=
  match newChildKey masterKey (hardIndex Purpose) with
  | Except.error e => Except.error e
  | Except.ok child1 =>
    match newChildKey child1 (hardIndex coin) with
    | Except.error e => Except.error e
    | Except.ok child2 =>
      match newChildKey child2 (hardIndex account) with
      | Except.error e => Except.error e
      | Except.ok child3 =>
        match newChildKey child3 chain with
        | Except.error e => Except.error e
        | Except.ok child4 =>
          match newChildKey child4 address with
          | Except.error e => Except.error e
          | Except.ok child5 => Except.ok child5

/-- Sequential fold of child derivations over a list of indices with early
error return (the railway pipeline the spec describes). -/
def derivePath {E : Type} (newChildKey : BKey → Nat → Except E BKey) :
    BKey → List Nat → Except E BKey
  | k, [] => Except.ok k
  | k, i :: rest =>
    match newChildKey k i with
    | Except.error e => Except.error e
    | Except.ok c => derivePath newChildKey c rest

/-- Definition following the words of claim C2 (and spec section 4.4):
five derivations whose first three indices combine the raw argument with
the hardened bit by bitwise OR. -/
def DeriveKeyFromPathClaim {E : Type} (newChildKey : BKey → Nat → Except E BKey)
    (masterKey : BKey) (coin account chain address : Nat) : Except E BKey :=
  derivePath newChildKey masterKey
    [44 ||| 2 ^ 31, coin ||| 2 ^ 31, account ||| 2 ^ 31, chain, address]

/-- Child-derivation instance that records in the key material the index of
every derivation actually performed; it never fails.  Used to observe which
indices `DeriveKeyFromPath` passes to the external primitive. -/
def recChild : BKey → Nat → Except String BKey :=
  fun k i => Except.ok ⟨k.key ++ [i], k.chainCode⟩

/-- Empty starting key for concrete runs. -/
def keyZero : BKey := ⟨[], []⟩

/-- Key material of a derivation result, empty on error. -/
def keyOf {E : Type} : Except E BKey → List Nat
  | Except.error _ => []
  | Except.ok k => k.key

/-- Error observer for derivation results. -/
def isError {E : Type} : Except E BKey → Bool
  | Except.error _ => true
  | Except.ok _ => false

/-- Order n of the secp256k1 group, quoted in `src/unnamed/part_000`. -/
def nOrder : Nat :=
  0xFFFFFFFFFFFFFFFFFFFFFFFFFFFFFFFEBAAEDCE6AF48A03BBFD25E8CD0364141

/-- Big-endian interpretation of a byte string as a natural number (the
`big.Int.SetBytes` reading used throughout the Go libraries). -/
def bytesToNat (bs : List Nat) : Nat := Nat.ofDigits 256 bs.reverse

/-- Minimal big-endian byte representation of a natural number (the
`big.Int.Bytes` serialization: no leading zero byte, empty for zero). -/
def natToBytes (n : Nat) : List Nat := (Nat.digits 256 n).reverse

/-- Models the decred secp256k1 `PrivKeyFromBytes` call made by
`GenerateKeysFromMnemonic`: the byte slice is interpreted as a big-endian
integer and reduced modulo the group order n (`ModNScalar.SetByteSlice`),
the overflow indication being discarded; no range validation and no error
path exist. -/
def privKeyFromBytes (bs : List Nat) : Nat := bytesToNat bs % nOrder

/-- Faithful translation of `GenerateKeysFromMnemonic` from
`src/unnamed/part_000`: validate the mnemonic, derive the seed with the
passphrase fixed to the empty string, build the master key, derive along
the BIP44 path, then extract the key pair with no further checks.  The Go
function returns a `(privateKey, publicKey, error)` triple of pointers;
the external collaborators (BIP39 validator, PBKDF2 seed derivation, BIP32
master-key and child-key constructions, secp256k1 scalar multiplication
serialized uncompressed by `pubKeyOf`) are passed as functions. -/
def GenerateKeysFromMnemonic
    (isMnemonicValid : String → Bool)
    (newSeed : String → String → List Nat)
    (newMasterKey : List Nat → Except String BKey)
    (newChildKey : BKey → Nat → Except String BKey)
    (pubKeyOf : Nat → List Nat)
    (mnemonic : String) (coin account chain address : Nat) :
    Option Nat × Option (List Nat) × Option String :=
  if isMnemonicValid mnemonic = false then (none, none, some "invalid mnemonic")
  else
    let seed := newSeed mnemonic ""
    match newMasterKey seed with
    | Except.error e => (none, none, some e)
    | Except.ok masterKey =>
      match DeriveKeyFromPath newChildKey masterKey coin account chain address with
      | Except.error e => (none, none, some e)
      | Except.ok key =>
        let d := privKeyFromBytes key.key
        (some d, some (pubKeyOf d), none)

/-- Base58 alphabet of the btcsuite encoder linked by `src/tron.go`. -/
def base58Alphabet : List Char :=
  "123456789ABCDEFGHJKLMNPQRSTUVWXYZabcdefghijkmnopqrstuvwxyz".toList

/-- Alphabet character of a base-58 digit. -/
def b58Char (d : Nat) : Char := base58Alphabet.getD d '1'

/-- Base-58 digit of an alphabet character, none for a foreign character. -/
def b58Index (c : Char) : Option Nat := base58Alphabet.indexOf? c

/-- Count of leading zero bytes, as scanned by the btcsuite encoder. -/
def leadingZeroBytes : List Nat → Nat
  | [] => 0
  | b :: bs => if b = 0 then leadingZeroBytes bs + 1 else 0

/-- Count of leading alphabet-zero characters, as scanned by the btcsuite
decoder. -/
def leadingOneChars : List Char → Nat
  | [] => 0
  | c :: cs => if c = '1' then leadingOneChars cs + 1 else 0

/-- Embedding of btcsuite `base58.Encode`: the bytes are read as one
big-endian number, its base-58 digits (produced by repeated division, here
`Nat.digits`, least significant first) are written most significant first
through the alphabet, and one alphabet-zero character is prepended per
leading zero byte. -/
def base58Encode (bs : List Nat) : String :=
  ⟨List.replicate (leadingZeroBytes bs) '1' ++
    ((Nat.digits 58 (bytesToNat bs)).reverse.map b58Char)⟩

/-- Digit values of a character string, none when some character is
outside the alphabet (btcsuite `base58.Decode` then gives up). -/
def b58DigitsOf : List Char → Option (List Nat)
  | [] => some []
  | c :: cs =>
    match b58Index c, b58DigitsOf cs with
    | some d, some ds => some (d :: ds)
    | _, _ => none

/-- Embedding of btcsuite `base58.Decode`: fold the digit values into a
number most significant first, serialize it as minimal big-endian bytes,
and prepend one zero byte per leading alphabet-zero character. -/
def base58Decode (s : String) : Option (List Nat) :=
  match b58DigitsOf s.data with
  | none => none
  | some ds =>
    some (List.replicate (leadingOneChars s.data) 0 ++
      natToBytes (ds.foldl (fun acc d => acc * 58 + d) 0))

/-- Versioned byte string built by `GenerateTronAddress` in `src/tron.go`:
drop the leading format byte of the 65-byte uncompressed public key, hash
the remaining 64 bytes with legacy Keccak-256 (passed in as `keccak256`),
keep the trailing 20 bytes and prepend the TRON version byte 0x41. -/
def tronAddressBytes (keccak256 : List Nat → List Nat)
    (pubKeySer : List Nat) : List Nat :=
  let hashBytes := keccak256 (pubKeySer.drop 1)
  0x41 :: hashBytes.drop (hashBytes.length - 20)

/-- Checksum step of `GenerateTronAddress`: leading 4 bytes of the double
SHA-256 of the versioned bytes. -/
def tronChecksum (sha256 : List Nat → List Nat)
    (addressBytes : List Nat) : List Nat :=
  (sha256 (sha256 addressBytes)).take 4

/-- Faithful translation of `GenerateTronAddress` from `src/tron.go`:
Base58 encoding of the versioned bytes followed by their checksum. -/
def GenerateTronAddress (keccak256 sha256 : List Nat → List Nat)
    (pubKeySer : List Nat) : String :=
  base58Encode (tronAddressBytes keccak256 pubKeySer ++
    tronChecksum sha256 (tronAddressBytes keccak256 pubKeySer))

/-- Trailing n elements of a list, in order. -/
def takeLast {α : Type} (n : Nat) (l : List α) : List α :=
  (l.reverse.take n).reverse

/-- Definition following the words of claim C1: Base58 encoding of
versioned-bytes concatenated with checksum, where versioned-bytes is the
single byte 0x41 followed by the trailing 20 bytes of the legacy
Keccak-256 digest of the 64 payload bytes, and checksum is the leading 4
bytes of the double SHA-256 of the versioned bytes. -/
def tronAddressSpec (keccak256 sha256 : List Nat → List Nat)
    (payload : List Nat) : String :=
  let versioned := 0x41 :: takeLast 20 (keccak256 payload)
  base58Encode (versioned ++ (sha256 (sha256 versioned)).take 4)

/-- Constant 32-byte hash instance for witnesses. -/
def hashConst32 : List Nat → List Nat := fun _ => List.replicate 32 0

/-- Child derivation that returns the parent unchanged; it never fails. -/
def childIdentity : BKey → Nat → Except String BKey :=
  fun k _ => Except.ok k

/-- Mnemonic validator accepting everything. -/
def acceptAll : String → Bool := fun _ => true

/-- Mnemonic validator rejecting everything. -/
def rejectAll : String → Bool := fun _ => false

/-- Seed derivation ignoring both arguments. -/
def seedConst : String → String → List Nat := fun _ _ => []

/-- Seed derivation that depends only on whether the passphrase is empty;
it agrees with `seedConst` at the empty passphrase and differs elsewhere. -/
def seedPassSensitive : String → String → List Nat :=
  fun _ p => if p = "" then [] else [1]

/-- Master-key construction returning the empty key. -/
def masterConst : List Nat → Except String BKey :=
  fun _ => Except.ok keyZero

/-- Big-endian 32-byte encoding of the secp256k1 group order n. -/
def nOrderBytes : List Nat :=
  [0xFF, 0xFF, 0xFF, 0xFF, 0xFF, 0xFF, 0xFF, 0xFF,
   0xFF, 0xFF, 0xFF, 0xFF, 0xFF, 0xFF, 0xFF, 0xFE,
   0xBA, 0xAE, 0xDC, 0xE6, 0xAF, 0x48, 0xA0, 0x3B,
   0xBF, 0xD2, 0x5E, 0x8C, 0xD0, 0x36, 0x41, 0x41]

/-- Master-key construction whose key material is the curve order itself:
an out-of-range private scalar. -/
def masterConstN : List Nat → Except String BKey :=
  fun _ => Except.ok ⟨nOrderBytes, []⟩

/-- Public-key serialization instance ignoring the scalar. -/
def pubConst : Nat → List Nat := fun _ => []

/-- Sample 65-byte uncompressed public-key serialization: format byte 0x04
followed by 64 payload bytes. -/
def pubSerSample : List Nat := 0x04 :: List.replicate 64 7

/-- Helper: the code's five-step derivation is the fold of the external
child-derivation primitive over the five indices it computes, the first
three being the wrapping `uint32` sums with the hardened offset. -/
theorem DeriveKeyFromPath_eq_derivePath {E : Type}
    (newChildKey : BKey → Nat → Except E BKey) (masterKey : BKey)
    (coin account chain address : Nat) :
    DeriveKeyFromPath newChildKey masterKey coin account chain address =
      derivePath newChildKey masterKey
        [hardIndex Purpose, hardIndex coin, hardIndex account, chain, address] := by
  simp only [DeriveKeyFromPath, derivePath]

/-- C2 (amended): DeriveKeyFromPath performs exactly five child derivations
in order, with indices 44 + 2^31, coin + 2^31, account + 2^31 (each a
wrapping 32-bit sum, which coincides with setting the hardened bit whenever
the argument is below 2^31), then chain and addressIndex unmodified; the
result is the child of the fifth derivation and any failure is returned
immediately, the remaining levels never being derived: the whole call is
the early-return fold of the child-derivation primitive over those five
indices. -/
theorem c2_five_levels {E : Type} (newChildKey : BKey → Nat → Except E BKey)
    (masterKey : BKey) (coin account chain address : Nat) :
    DeriveKeyFromPath newChildKey masterKey coin account chain address =
      derivePath newChildKey masterKey
        [(44 + 2 ^ 31) % 2 ^ 32, (coin + 2 ^ 31) % 2 ^ 32,
          (account + 2 ^ 31) % 2 ^ 32, chain, address] :=
  DeriveKeyFromPath_eq_derivePath newChildKey masterKey coin account chain address

/-- Helper: a number below a power of two is disjoint from that power of
two, so bitwise OR with it coincides with addition. -/
theorem lor_two_pow_eq_add {k x : Nat} (h : x < 2 ^ k) :
    x ||| 2 ^ k = x + 2 ^ k := by
  apply Nat.eq_of_testBit_eq
  intro i
  rcases Nat.lt_trichotomy i k with hik | rfl | hik
  · rw [Nat.testBit_lor, Nat.testBit_two_pow_of_ne (Nat.ne_of_gt hik),
      Nat.add_comm, Nat.testBit_two_pow_add_gt hik]
    simp
  · rw [Nat.testBit_lor, Nat.testBit_two_pow_self, Nat.add_comm,
      Nat.testBit_two_pow_add_eq, Nat.testBit_lt_two_pow h]
    simp
  · have hxk : x + 2 ^ k < 2 ^ i := by
      have h2 : 2 ^ (k + 1) ≤ 2 ^ i := Nat.pow_le_pow_right (by omega) hik
      have h3 : 2 ^ (k + 1) = 2 ^ k * 2 := Nat.pow_succ 2 k
      omega
    have hx : x < 2 ^ i := by omega
    rw [Nat.testBit_lor, Nat.testBit_two_pow_of_ne (Nat.ne_of_lt hik),
      Nat.testBit_lt_two_pow hxk, Nat.testBit_lt_two_pow hx]
    simp

/-- Helper: bitwise OR with a power of two whose bit is already set is the
identity. -/
theorem lor_two_pow_of_testBit {k x : Nat} (h : x.testBit k = true) :
    x ||| 2 ^ k = x := by
  apply Nat.eq_of_testBit_eq
  intro i
  by_cases hik : k = i
  · subst hik
    rw [Nat.testBit_lor, Nat.testBit_two_pow_self, h]
    rfl
  · rw [Nat.testBit_lor, Nat.testBit_two_pow_of_ne hik]
    simp

/-- Helper: every number in the hardened 32-bit range has bit 31 set. -/
theorem testBit31_of_hardened {x : Nat} (h1 : 2 ^ 31 ≤ x) (h2 : x < 2 ^ 32) :
    x.testBit 31 = true := by
  rw [Nat.testBit_to_div_mod]
  have e31 : (2 : Nat) ^ 31 = 2147483648 := by norm_num
  have e32 : (2 : Nat) ^ 32 = 4294967296 := by norm_num
  have hdiv : x / 2 ^ 31 = 1 := by
    apply Nat.div_eq_of_lt_le <;> omega
  rw [hdiv]
  rfl

/-- C10: DeriveKeyFromPath applies the hardened bit by wrapping 32-bit
addition of 2^31, not bitwise OR: below 2^31 the resulting index is the
argument plus 2^31, which is exactly the argument with the hardened bit set
(the bitwise OR); at or above 2^31 the sum wraps modulo 2^32 to the
argument minus 2^31, a non-hardened index (whereas bitwise OR would have
left the already-hardened argument unchanged); no error is raised, the
derivation succeeding whenever the child-derivation primitive does. -/
theorem c10_hardened_bit_wraps (x : Nat) (hx : x < 2 ^ 32)
    (newChildKey : BKey → Nat → Except String BKey)
    (htotal : ∀ k i, ∃ c, newChildKey k i = Except.ok c)
    (masterKey : BKey) (account chain address : Nat) :
    (x < 2 ^ 31 → hardIndex x = x + 2 ^ 31 ∧ hardIndex x = x ||| 2 ^ 31) ∧
    (2 ^ 31 ≤ x →
      hardIndex x = x - 2 ^ 31 ∧ hardIndex x < 2 ^ 31 ∧ x ||| 2 ^ 31 = x) ∧
    ∃ c, DeriveKeyFromPath newChildKey masterKey x account chain address =
      Except.ok c := by
  have e31 : (2 : Nat) ^ 31 = 2147483648 := by norm_num
  have e32 : (2 : Nat) ^ 32 = 4294967296 := by norm_num
  have eHO : HardenedOffset = 2147483648 := by norm_num [HardenedOffset]
  refine ⟨fun hlt => ⟨?_, ?_⟩, fun hge => ⟨?_, ?_, ?_⟩, ?_⟩
  · unfold hardIndex
    rw [Nat.mod_eq_of_lt] <;> omega
  · unfold hardIndex
    rw [lor_two_pow_eq_add (by omega), Nat.mod_eq_of_lt] <;> omega
  · unfold hardIndex
    omega
  · unfold hardIndex
    omega
  · exact lor_two_pow_of_testBit (testBit31_of_hardened hge hx)
  · obtain ⟨c1, h1⟩ := htotal masterKey (hardIndex Purpose)
    obtain ⟨c2, h2⟩ := htotal c1 (hardIndex x)
    obtain ⟨c3, h3⟩ := htotal c2 (hardIndex account)
    obtain ⟨c4, h4⟩ := htotal c3 chain
    obtain ⟨c5, h5⟩ := htotal c4 address
    exact ⟨c5, by simp [DeriveKeyFromPath, h1, h2, h3, h4, h5]⟩

/-- C10 witness: the theorem applied at the already-hardened coin value
2^31 + 7 with the recording child-derivation instance. -/
theorem c10_hardened_bit_wraps_witness :
    (2 ^ 31 + 7 < 2 ^ 32 ∧ ∀ k i, ∃ c, recChild k i = Except.ok c) ∧
    ((2 ^ 31 + 7 < 2 ^ 31 →
        hardIndex (2 ^ 31 + 7) = 2 ^ 31 + 7 + 2 ^ 31 ∧
        hardIndex (2 ^ 31 + 7) = (2 ^ 31 + 7) ||| 2 ^ 31) ∧
      (2 ^ 31 ≤ 2 ^ 31 + 7 →
        hardIndex (2 ^ 31 + 7) = 2 ^ 31 + 7 - 2 ^ 31 ∧
        hardIndex (2 ^ 31 + 7) < 2 ^ 31 ∧
        (2 ^ 31 + 7) ||| 2 ^ 31 = 2 ^ 31 + 7) ∧
      ∃ c, DeriveKeyFromPath recChild keyZero (2 ^ 31 + 7) 1 0 2 =
        Except.ok c) :=
  ⟨⟨by norm_num, fun _ _ => ⟨_, rfl⟩⟩,
    c10_hardened_bit_wraps (2 ^ 31 + 7) (by norm_num) recChild
      (fun _ _ => ⟨_, rfl⟩) keyZero 1 0 2⟩

/-- C2 counterexample: at the already-hardened coin argument 2^31 the code
derives the second level at index (2^31 + 2^31) mod 2^32 = 0, while the
claim's list of indices demands 2^31 combined with the hardened bit, which
is 2^31 itself; the recorded derivation traces differ. -/
theorem c2_counterexample :
    keyOf (DeriveKeyFromPath recChild keyZero (2 ^ 31) 0 0 0) ≠
      keyOf (DeriveKeyFromPathClaim recChild keyZero (2 ^ 31) 0 0 0) := by
  have h1 : (44 : Nat) ||| 2 ^ 31 = 2147483692 := by
    rw [lor_two_pow_eq_add (by norm_num)]
    norm_num
  have h2 : (2 ^ 31 : Nat) ||| 2 ^ 31 = 2 ^ 31 := Nat.or_self _
  have h3 : (0 : Nat) ||| 2 ^ 31 = 2 ^ 31 := Nat.zero_or _
  simp only [DeriveKeyFromPathClaim, h1, h2, h3, derivePath, recChild,
    DeriveKeyFromPath, keyOf, keyZero, hardIndex, HardenedOffset, Purpose]
  decide

/-- C4 counterexample: called with the hardened chain value 2^31, the path
derivation does not reject: it succeeds, and the recorded trace shows the
fourth level was derived at the hardened index 2^31 itself. -/
theorem c4_counterexample :
    DeriveKeyFromPath recChild keyZero 0 0 (2 ^ 31) 0 =
      Except.ok ⟨[2147483692, 2147483648, 2147483648, 2147483648, 0], []⟩ ∧
    isError (DeriveKeyFromPath recChild keyZero 0 0 (2 ^ 31) 0) = false :=
  ⟨rfl, rfl⟩

/-- C4 (amended): DeriveKeyFromPath performs no validation of the chain and
addressIndex arguments: a value with the hardened bit set is passed
unchanged to the child-derivation primitive at the corresponding level, so
hardened derivation is silently performed there, the call succeeding
whenever the child derivations do; no InvalidPathParameter rejection
exists (the repository documents the non-hardened range as caller
responsibility). -/
theorem c4_silent_hardened {E : Type} (newChildKey : BKey → Nat → Except E BKey)
    (htotal : ∀ k i, ∃ c, newChildKey k i = Except.ok c)
    (masterKey : BKey) (coin account chain address : Nat)
    (_hhard : 2 ^ 31 ≤ chain ∨ 2 ^ 31 ≤ address) :
    ∃ c1 c2 c3 c4 c5,
      newChildKey masterKey (hardIndex Purpose) = Except.ok c1 ∧
      newChildKey c1 (hardIndex coin) = Except.ok c2 ∧
      newChildKey c2 (hardIndex account) = Except.ok c3 ∧
      newChildKey c3 chain = Except.ok c4 ∧
      newChildKey c4 address = Except.ok c5 ∧
      DeriveKeyFromPath newChildKey masterKey coin account chain address =
        Except.ok c5 := by
  obtain ⟨c1, h1⟩ := htotal masterKey (hardIndex Purpose)
  obtain ⟨c2, h2⟩ := htotal c1 (hardIndex coin)
  obtain ⟨c3, h3⟩ := htotal c2 (hardIndex account)
  obtain ⟨c4, h4⟩ := htotal c3 chain
  obtain ⟨c5, h5⟩ := htotal c4 address
  exact ⟨c1, c2, c3, c4, c5, h1, h2, h3, h4, h5,
    by simp [DeriveKeyFromPath, h1, h2, h3, h4, h5]⟩

/-- C4 amended witness: the amended theorem applied with the recording
child-derivation instance at the hardened chain value 2^31. -/
theorem c4_silent_hardened_witness :
    ((∀ k i, ∃ c, recChild k i = Except.ok c) ∧
      (2 ^ 31 ≤ 2 ^ 31 ∨ 2 ^ 31 ≤ (0 : Nat))) ∧
    ∃ c1 c2 c3 c4 c5,
      recChild keyZero (hardIndex Purpose) = Except.ok c1 ∧
      recChild c1 (hardIndex 0) = Except.ok c2 ∧
      recChild c2 (hardIndex 0) = Except.ok c3 ∧
      recChild c3 (2 ^ 31) = Except.ok c4 ∧
      recChild c4 0 = Except.ok c5 ∧
      DeriveKeyFromPath recChild keyZero 0 0 (2 ^ 31) 0 = Except.ok c5 :=
  ⟨⟨fun _ _ => ⟨_, rfl⟩, Or.inl (Nat.le_refl _)⟩,
    c4_silent_hardened recChild (fun _ _ => ⟨_, rfl⟩) keyZero 0 0 (2 ^ 31) 0
      (Or.inl (Nat.le_refl _))⟩

/-- C3 counterexample: run the pipeline up to a derived extended key whose
32-byte material is the big-endian encoding of the curve order n itself, an
out-of-range private scalar.  The claim demands failure with
InvalidPrivateScalar; the code instead succeeds (error component `none`)
and silently reduces the scalar modulo n to 0, also computing a public key
for it. -/
theorem c3_counterexample :
    GenerateKeysFromMnemonic acceptAll seedConst masterConstN childIdentity
      pubConst "m" 195 0 0 0 = (some 0, some [], none) := by
  rfl

/-- C3 (amended): key-pair extraction performs no range validation and can
never fail: whenever the mnemonic validates, the master key builds and the
path derivation succeeds with extended key `derived`, the call returns,
with error component `none`, the private scalar d obtained by reducing the
big-endian integer of the 32-byte key material modulo the curve order n
(so d may even be 0) together with the public key computed from that d
unconditionally. -/
theorem c3_no_scalar_validation
    (isMnemonicValid : String → Bool) (newSeed : String → String → List Nat)
    (newMasterKey : List Nat → Except String BKey)
    (newChildKey : BKey → Nat → Except String BKey)
    (pubKeyOf : Nat → List Nat)
    (mnemonic : String) (coin account chain address : Nat)
    (hvalid : isMnemonicValid mnemonic = true)
    (masterKey : BKey)
    (hmaster : newMasterKey (newSeed mnemonic "") = Except.ok masterKey)
    (derived : BKey)
    (hderive : DeriveKeyFromPath newChildKey masterKey coin account chain
      address = Except.ok derived) :
    GenerateKeysFromMnemonic isMnemonicValid newSeed newMasterKey newChildKey
      pubKeyOf mnemonic coin account chain address =
      (some (bytesToNat derived.key % nOrder),
        some (pubKeyOf (bytesToNat derived.key % nOrder)), none) := by
  simp [GenerateKeysFromMnemonic, hvalid, hmaster, hderive, privKeyFromBytes]

/-- C3 amended witness: the amended theorem applied to the concrete run of
the counterexample, whose derived key material encodes n and whose
extracted scalar is therefore 0. -/
theorem c3_no_scalar_validation_witness :
    (acceptAll "m" = true ∧
      masterConstN (seedConst "m" "") = Except.ok ⟨nOrderBytes, []⟩ ∧
      DeriveKeyFromPath childIdentity ⟨nOrderBytes, []⟩ 195 0 0 0 =
        Except.ok ⟨nOrderBytes, []⟩) ∧
    GenerateKeysFromMnemonic acceptAll seedConst masterConstN childIdentity
      pubConst "m" 195 0 0 0 =
      (some (bytesToNat nOrderBytes % nOrder),
        some (pubConst (bytesToNat nOrderBytes % nOrder)), none) :=
  ⟨⟨rfl, rfl, rfl⟩,
    c3_no_scalar_validation acceptAll seedConst masterConstN childIdentity
      pubConst "m" 195 0 0 0 rfl ⟨nOrderBytes, []⟩ rfl ⟨nOrderBytes, []⟩ rfl⟩

/-- C5: the whole pipeline is deterministic.  Two calls of
GenerateKeysFromMnemonic with identical mnemonic and identical path
parameters (against the same external primitives) produce the identical
seed, the identical private/public key pair, and feeding the public keys
to GenerateTronAddress produces the identical address string. -/
theorem c5_deterministic
    (isMnemonicValid : String → Bool) (newSeed : String → String → List Nat)
    (newMasterKey : List Nat → Except String BKey)
    (newChildKey : BKey → Nat → Except String BKey)
    (pubKeyOf : Nat → List Nat) (keccak256 sha256 : List Nat → List Nat)
    (m1 m2 : String) (coin1 coin2 account1 account2 chain1 chain2
      address1 address2 : Nat)
    (hm : m1 = m2) (hcoin : coin1 = coin2) (haccount : account1 = account2)
    (hchain : chain1 = chain2) (haddress : address1 = address2) :
    newSeed m1 "" = newSeed m2 "" ∧
    GenerateKeysFromMnemonic isMnemonicValid newSeed newMasterKey newChildKey
      pubKeyOf m1 coin1 account1 chain1 address1 =
      GenerateKeysFromMnemonic isMnemonicValid newSeed newMasterKey
        newChildKey pubKeyOf m2 coin2 account2 chain2 address2 ∧
    Option.map (GenerateTronAddress keccak256 sha256)
      (GenerateKeysFromMnemonic isMnemonicValid newSeed newMasterKey
        newChildKey pubKeyOf m1 coin1 account1 chain1 address1).2.1 =
      Option.map (GenerateTronAddress keccak256 sha256)
        (GenerateKeysFromMnemonic isMnemonicValid newSeed newMasterKey
          newChildKey pubKeyOf m2 coin2 account2 chain2 address2).2.1 := by
  subst hm hcoin haccount hchain haddress
  exact ⟨rfl, rfl, rfl⟩

/-- C5 witness: the determinism theorem applied to two textually identical
concrete calls. -/
theorem c5_deterministic_witness :
    ("seed phrase" = "seed phrase" ∧ (195 : Nat) = 195 ∧ (0 : Nat) = 0 ∧
      (0 : Nat) = 0 ∧ (1 : Nat) = 1) ∧
    (seedConst "seed phrase" "" = seedConst "seed phrase" "" ∧
      GenerateKeysFromMnemonic acceptAll seedConst masterConst childIdentity
        pubConst "seed phrase" 195 0 0 1 =
        GenerateKeysFromMnemonic acceptAll seedConst masterConst
          childIdentity pubConst "seed phrase" 195 0 0 1 ∧
      Option.map (GenerateTronAddress hashConst32 hashConst32)
        (GenerateKeysFromMnemonic acceptAll seedConst masterConst
          childIdentity pubConst "seed phrase" 195 0 0 1).2.1 =
        Option.map (GenerateTronAddress hashConst32 hashConst32)
          (GenerateKeysFromMnemonic acceptAll seedConst masterConst
            childIdentity pubConst "seed phrase" 195 0 0 1).2.1) :=
  ⟨⟨rfl, rfl, rfl, rfl, rfl⟩,
    c5_deterministic acceptAll seedConst masterConst childIdentity pubConst
      hashConst32 hashConst32 "seed phrase" "seed phrase" 195 195 0 0 0 0 1 1
      rfl rfl rfl rfl rfl⟩

/-- C6: a mnemonic containing an unknown word or failing its checksum is
rejected by the BIP39 validator, and GenerateKeysFromMnemonic then returns
nil for both keys together with the invalid-mnemonic error — whatever the
seed-derivation, master-key and child-key primitives are, so no seed or
key derivation influences (or is needed for) the outcome and no partial
result is exposed. -/
theorem c6_invalid_mnemonic_rejected
    (badWord badChecksum : String → Prop)
    (isMnemonicValid : String → Bool)
    (hvalidator : ∀ p, badWord p ∨ badChecksum p → isMnemonicValid p = false)
    (mnemonic : String) (hbad : badWord mnemonic ∨ badChecksum mnemonic)
    (newSeed : String → String → List Nat)
    (newMasterKey : List Nat → Except String BKey)
    (newChildKey : BKey → Nat → Except String BKey)
    (pubKeyOf : Nat → List Nat) (coin account chain address : Nat) :
    GenerateKeysFromMnemonic isMnemonicValid newSeed newMasterKey newChildKey
      pubKeyOf mnemonic coin account chain address =
      (none, none, some "invalid mnemonic") := by
  simp [GenerateKeysFromMnemonic, hvalidator mnemonic hbad]

/-- C6 witness: the theorem applied to a phrase with an out-of-dictionary
word, under the all-rejecting validator. -/
theorem c6_invalid_mnemonic_rejected_witness :
    ((∀ p, p = "zebra zebra" ∨ False → rejectAll p = false) ∧
      ("zebra zebra" = "zebra zebra" ∨ False)) ∧
    GenerateKeysFromMnemonic rejectAll seedConst masterConst childIdentity
      pubConst "zebra zebra" 195 0 0 0 =
      (none, none, some "invalid mnemonic") :=
  ⟨⟨fun _ _ => rfl, Or.inl rfl⟩,
    c6_invalid_mnemonic_rejected (fun p => p = "zebra zebra") (fun _ => False)
      rejectAll (fun _ _ => rfl) "zebra zebra" (Or.inl rfl) seedConst
      masterConst childIdentity pubConst 195 0 0 0⟩

/-- C9: GenerateKeysFromMnemonic (whose signature, like the Go original,
has no passphrase parameter) invokes seed derivation with the passphrase
fixed to the empty string: its outcome is insensitive to what the seed
derivation does at any non-empty passphrase, so two seed primitives that
agree at the empty passphrase make the pipeline agree everywhere — no
caller of this core can reach the wallet tree of a non-empty passphrase. -/
theorem c9_empty_passphrase
    (isMnemonicValid : String → Bool)
    (newSeed1 newSeed2 : String → String → List Nat)
    (hagree : ∀ m, newSeed1 m "" = newSeed2 m "")
    (newMasterKey : List Nat → Except String BKey)
    (newChildKey : BKey → Nat → Except String BKey)
    (pubKeyOf : Nat → List Nat)
    (mnemonic : String) (coin account chain address : Nat) :
    GenerateKeysFromMnemonic isMnemonicValid newSeed1 newMasterKey
      newChildKey pubKeyOf mnemonic coin account chain address =
      GenerateKeysFromMnemonic isMnemonicValid newSeed2 newMasterKey
        newChildKey pubKeyOf mnemonic coin account chain address := by
  simp only [GenerateKeysFromMnemonic, hagree]

/-- C9 witness: the theorem applied to `seedConst` and the
passphrase-sensitive seed derivation, which agree at the empty passphrase
and differ at every non-empty one. -/
theorem c9_empty_passphrase_witness :
    (∀ m, seedConst m "" = seedPassSensitive m "") ∧
    GenerateKeysFromMnemonic acceptAll seedConst masterConst childIdentity
      pubConst "any phrase" 195 0 0 0 =
      GenerateKeysFromMnemonic acceptAll seedPassSensitive masterConst
        childIdentity pubConst "any phrase" 195 0 0 0 :=
  ⟨fun _ => rfl,
    c9_empty_passphrase acceptAll seedConst seedPassSensitive (fun _ => rfl)
      masterConst childIdentity pubConst "any phrase" 195 0 0 0⟩

/-- Helper: decoding an alphabet character recovers its digit. -/
theorem b58Index_b58Char : ∀ d, d < 58 → b58Index (b58Char d) = some d := by
  decide

/-- Helper: only the digit 0 is written as the character 1. -/
theorem b58Char_ne_one : ∀ d, d < 58 → d ≠ 0 → b58Char d ≠ '1' := by
  decide

/-- Helper: digit 26 is written as the character T. -/
theorem b58Char_26 : b58Char 26 = 'T' := by
  decide

/-- Helper: the most-significant-first fold of the decoder is positional
evaluation of the reversed digit list. -/
theorem foldl58_shift (ds : List Nat) (a : Nat) :
    ds.foldl (fun acc d => acc * 58 + d) a =
      Nat.ofDigits 58 ds.reverse + a * 58 ^ ds.length := by
  induction ds generalizing a with
  | nil => simp
  | cons d ds ih =>
    rw [List.foldl_cons, ih, List.reverse_cons, Nat.ofDigits_append,
      Nat.ofDigits_singleton, List.length_reverse, List.length_cons]
    ring

/-- Helper: the decoder fold from zero evaluates the reversed digits. -/
theorem foldl58_eq_ofDigits (ds : List Nat) :
    ds.foldl (fun acc d => acc * 58 + d) 0 = Nat.ofDigits 58 ds.reverse := by
  simpa using foldl58_shift ds 0

/-- Helper: character-wise decoding inverts character-wise encoding on
digit lists below 58. -/
theorem b58DigitsOf_map (ds : List Nat) (h : ∀ d ∈ ds, d < 58) :
    b58DigitsOf (ds.map b58Char) = some ds := by
  induction ds with
  | nil => rfl
  | cons d ds ih =>
    have hd : d < 58 := h d (List.mem_cons_self d ds)
    have hds : ∀ x ∈ ds, x < 58 := fun x hx => h x (List.mem_cons_of_mem d hx)
    simp only [List.map_cons, b58DigitsOf, b58Index_b58Char d hd, ih hds]

/-- Helper: the most significant digit of a number between consecutive
powers of the base is its quotient by the lower power. -/
theorem digits_getLast?_of_bounds {b : Nat} (hb : 1 < b) (k : Nat) :
    ∀ n : Nat, b ^ k ≤ n → n < b ^ (k + 1) →
      (Nat.digits b n).getLast? = some (n / b ^ k) := by
  induction k with
  | zero =>
    intro n h1 h2
    simp only [pow_zero] at h1
    simp only [zero_add, pow_one] at h2
    rw [Nat.digits_def' hb (by omega), Nat.div_eq_of_lt h2]
    simp [Nat.mod_eq_of_lt h2]
  | succ k ih =>
    intro n h1 h2
    have hb0 : 0 < b := by omega
    have hpow : 0 < b ^ (k + 1) := pow_pos hb0 _
    have hn : 0 < n := lt_of_lt_of_le hpow h1
    rw [Nat.digits_def' hb hn]
    have hdiv1 : b ^ k ≤ n / b := by
      rw [Nat.le_div_iff_mul_le hb0, ← pow_succ]
      exact h1
    have hdiv2 : n / b < b ^ (k + 1) := by
      rw [Nat.div_lt_iff_lt_mul hb0, ← pow_succ]
      exact h2
    have hne : Nat.digits b (n / b) ≠ [] := by
      rw [Nat.digits_ne_nil_iff_ne_zero]
      have : 0 < b ^ k := pow_pos hb0 _
      omega
    have hquot : n / b / b ^ k = n / b ^ (k + 1) := by
      rw [Nat.div_div_eq_div_mul, ← pow_succ']
    cases hL : Nat.digits b (n / b) with
    | nil => exact absurd hL hne
    | cons y ys =>
      rw [List.getLast?_cons_cons, ← hL, ih (n / b) hdiv1 hdiv2, hquot]

/-- Helper: a byte string with nonzero leading byte decodes, through the
big-endian reading, to a nonzero number. -/
theorem bytesToNat_cons_ne_zero (hd : Nat) (tl : List Nat) (hhd : hd ≠ 0) :
    bytesToNat (hd :: tl) ≠ 0 := by
  unfold bytesToNat
  rw [List.reverse_cons, Nat.ofDigits_append, Nat.ofDigits_singleton]
  have h1 : 0 < (256 : ℕ) ^ tl.reverse.length := pow_pos (by norm_num) _
  have h2 : 0 < (256 : ℕ) ^ tl.reverse.length * hd :=
    Nat.mul_pos h1 (Nat.pos_of_ne_zero hhd)
  omega

/-- Helper: serializing the big-endian value of a byte string with nonzero
leading byte gives the byte string back. -/
theorem natToBytes_bytesToNat (hd : Nat) (tl : List Nat) (hhd : hd ≠ 0)
    (hbytes : ∀ b ∈ hd :: tl, b < 256) :
    natToBytes (bytesToNat (hd :: tl)) = hd :: tl := by
  unfold natToBytes bytesToNat
  have hrev : ∀ x ∈ (hd :: tl).reverse, x < 256 := fun x hx =>
    hbytes x (List.mem_reverse.1 hx)
  have hlast : ∀ h : (hd :: tl).reverse ≠ [], (hd :: tl).reverse.getLast h ≠ 0 := by
    intro h
    have h1 := List.getLast?_eq_getLast (hd :: tl).reverse h
    rw [List.getLast?_reverse, List.head?_cons] at h1
    have h2 := Option.some.inj h1
    exact h2 ▸ hhd
  rw [Nat.digits_ofDigits 256 (by norm_num) (hd :: tl).reverse hrev hlast,
    List.reverse_reverse]

/-- Helper: the character data of an encoding with nonzero leading byte is
exactly the alphabet rendering of the base-58 digits, most significant
first. -/
theorem base58Encode_data (hd : Nat) (tl : List Nat) (hhd : hd ≠ 0) :
    (base58Encode (hd :: tl)).data =
      (Nat.digits 58 (bytesToNat (hd :: tl))).reverse.map b58Char := by
  have hlz : leadingZeroBytes (hd :: tl) = 0 := by
    simp [leadingZeroBytes, hhd]
  simp [base58Encode, hlz]

/-- Helper: the rendering of the digits of a nonzero number has no leading
alphabet-zero character, its first character being the nonzero most
significant digit. -/
theorem leadingOneChars_digits {N : Nat} (hN : N ≠ 0) :
    leadingOneChars ((Nat.digits 58 N).reverse.map b58Char) = 0 := by
  have hne : Nat.digits 58 N ≠ [] := Nat.digits_ne_nil_iff_ne_zero.2 hN
  cases hL : (Nat.digits 58 N).reverse with
  | nil => exact absurd (List.reverse_eq_nil_iff.1 hL) hne
  | cons c cs =>
    have hcmem : c ∈ Nat.digits 58 N := by
      have : c ∈ (Nat.digits 58 N).reverse := by
        rw [hL]; exact List.mem_cons_self c cs
      exact List.mem_reverse.1 this
    have hc58 : c < 58 := Nat.digits_lt_base (by norm_num) hcmem
    have hc0 : c ≠ 0 := by
      have h1 := List.getLast?_eq_getLast (Nat.digits 58 N) hne
      have h2 : (Nat.digits 58 N).reverse.head? = some c := by
        rw [hL]; rfl
      rw [List.head?_reverse, h1] at h2
      have h3 := Option.some.inj h2
      rw [← h3]
      exact Nat.getLast_digit_ne_zero 58 hN
    rw [List.map_cons]
    simp [leadingOneChars, b58Char_ne_one c hc58 hc0]

/-- Helper: Base58 decoding inverts Base58 encoding on byte strings with a
nonzero leading byte. -/
theorem base58Decode_encode (hd : Nat) (tl : List Nat) (hhd : hd ≠ 0)
    (hbytes : ∀ b ∈ hd :: tl, b < 256) :
    base58Decode (base58Encode (hd :: tl)) = some (hd :: tl) := by
  have hN : bytesToNat (hd :: tl) ≠ 0 := bytesToNat_cons_ne_zero hd tl hhd
  have hdata := base58Encode_data hd tl hhd
  have hdlt : ∀ d ∈ (Nat.digits 58 (bytesToNat (hd :: tl))).reverse, d < 58 :=
    fun d hx => Nat.digits_lt_base (by norm_num) (List.mem_reverse.1 hx)
  have hdg := b58DigitsOf_map _ hdlt
  have hlo := leadingOneChars_digits hN
  simp only [base58Decode, hdata, hdg, hlo, foldl58_eq_ofDigits,
    List.reverse_reverse, Nat.ofDigits_digits,
    natToBytes_bytesToNat hd tl hhd hbytes, List.replicate, List.nil_append]

/-- Helper: the big-endian value of a 25-byte string led by the version
byte 0x41 = 65 lies between 65 and 66 times 256^24. -/
theorem bytesToNat_25_bounds (tl : List Nat) (h24 : tl.length = 24)
    (hbytes : ∀ b ∈ tl, b < 256) :
    65 * 256 ^ 24 ≤ bytesToNat (65 :: tl) ∧
      bytesToNat (65 :: tl) < 66 * 256 ^ 24 := by
  unfold bytesToNat
  rw [List.reverse_cons, Nat.ofDigits_append, Nat.ofDigits_singleton,
    List.length_reverse, h24]
  have hX : Nat.ofDigits 256 tl.reverse < 256 ^ 24 := by
    have h := @Nat.ofDigits_lt_base_pow_length 256 tl.reverse (by norm_num)
      (fun x hx => hbytes x (List.mem_reverse.1 hx))
    rwa [List.length_reverse, h24] at h
  omega

/-- Helper: the Base58 encoding of any 25-byte string led by the version
byte 0x41 has exactly 34 characters and starts with the character T. -/
theorem base58Encode_25_format (tl : List Nat) (h24 : tl.length = 24)
    (hbytes : ∀ b ∈ tl, b < 256) :
    (base58Encode (65 :: tl)).data.length = 34 ∧
      (base58Encode (65 :: tl)).data.head? = some 'T' := by
  obtain ⟨hlo, hhi⟩ := bytesToNat_25_bounds tl h24 hbytes
  have hNlo : 58 ^ 33 ≤ bytesToNat (65 :: tl) :=
    le_trans (by norm_num) hlo
  have hNhi : bytesToNat (65 :: tl) < 58 ^ 34 :=
    lt_of_lt_of_le hhi (by norm_num)
  have hN0 : bytesToNat (65 :: tl) ≠ 0 := by
    have hp : 0 < (58 : ℕ) ^ 33 := pow_pos (by norm_num) _
    omega
  have hdata := base58Encode_data 65 tl (by norm_num)
  have hlen : (Nat.digits 58 (bytesToNat (65 :: tl))).length = 34 := by
    rw [Nat.digits_len 58 _ (by norm_num) hN0,
      @Nat.log_eq_of_pow_le_of_lt_pow 58 33 _ hNlo hNhi]
  have hdivq : bytesToNat (65 :: tl) / 58 ^ 33 = 26 := by
    apply Nat.div_eq_of_lt_le
    · calc 26 * 58 ^ 33 ≤ 65 * 256 ^ 24 := by norm_num
      _ ≤ bytesToNat (65 :: tl) := hlo
    · calc bytesToNat (65 :: tl) < 66 * 256 ^ 24 := hhi
      _ ≤ (26 + 1) * 58 ^ 33 := by norm_num
  have hlast : (Nat.digits 58 (bytesToNat (65 :: tl))).getLast? = some 26 := by
    rw [digits_getLast?_of_bounds (by norm_num) 33 _ hNlo hNhi, hdivq]
  constructor
  · rw [hdata, List.length_map, List.length_reverse, hlen]
  · rw [hdata, List.head?_map, List.head?_reverse, hlast, Option.map_some',
      b58Char_26]

/-- Helper: the versioned bytes built by GenerateTronAddress have exactly
21 bytes whenever the Keccak digest has 32. -/
theorem tronAddressBytes_length (keccak256 : List Nat → List Nat)
    (hk32 : ∀ x, (keccak256 x).length = 32) (pubKeySer : List Nat) :
    (tronAddressBytes keccak256 pubKeySer).length = 21 := by
  simp [tronAddressBytes, hk32]

/-- Helper: the checksum has exactly 4 bytes whenever the SHA-256 digest
has 32. -/
theorem tronChecksum_length (sha256 : List Nat → List Nat)
    (hs32 : ∀ x, (sha256 x).length = 32) (addressBytes : List Nat) :
    (tronChecksum sha256 addressBytes).length = 4 := by
  simp [tronChecksum, List.length_take, hs32]

/-- Helper: the versioned-plus-checksum byte string in cons form: version
byte 65 followed by the digest tail and the checksum. -/
theorem tronAWC_cons (keccak256 sha256 : List Nat → List Nat)
    (pubKeySer : List Nat) :
    tronAddressBytes keccak256 pubKeySer ++
        tronChecksum sha256 (tronAddressBytes keccak256 pubKeySer) =
      65 :: ((keccak256 (pubKeySer.drop 1)).drop
          ((keccak256 (pubKeySer.drop 1)).length - 20) ++
        tronChecksum sha256 (tronAddressBytes keccak256 pubKeySer)) := by
  simp [tronAddressBytes]

/-- Helper: every byte of the versioned-plus-checksum string is a byte,
given that the two digest primitives emit bytes. -/
theorem tronAWC_bytes (keccak256 sha256 : List Nat → List Nat)
    (hkB : ∀ x, ∀ b ∈ keccak256 x, b < 256)
    (hsB : ∀ x, ∀ b ∈ sha256 x, b < 256) (pubKeySer : List Nat) :
    ∀ b ∈ (keccak256 (pubKeySer.drop 1)).drop
        ((keccak256 (pubKeySer.drop 1)).length - 20) ++
      tronChecksum sha256 (tronAddressBytes keccak256 pubKeySer), b < 256 := by
  intro b hb
  rcases List.mem_append.1 hb with h | h
  · exact hkB _ b (List.drop_subset _ _ h)
  · exact hsB _ b (List.take_subset _ _ h)

/-- C1: for every 65-byte uncompressed public-key serialization,
GenerateTronAddress returns the Base58 encoding of versioned-bytes
concatenated with checksum, where versioned-bytes is 0x41 followed by the
trailing 20 bytes of the legacy Keccak-256 digest of the 64 payload bytes
(the leading format byte excluded), and checksum is the leading 4 bytes of
the double SHA-256 of the versioned bytes: the code agrees with the
spec-worded `tronAddressSpec` applied to the 64-byte payload. -/
theorem c1_tron_address_spec (keccak256 sha256 : List Nat → List Nat)
    (pubKeySer : List Nat) (h65 : pubKeySer.length = 65) :
    GenerateTronAddress keccak256 sha256 pubKeySer =
      tronAddressSpec keccak256 sha256 (pubKeySer.drop 1) ∧
    (pubKeySer.drop 1).length = 64 := by
  constructor
  · have htail : ∀ l : List Nat, takeLast 20 l = l.drop (l.length - 20) := by
      intro l
      unfold takeLast
      rw [List.take_reverse, List.reverse_reverse]
    simp [GenerateTronAddress, tronAddressSpec, tronAddressBytes, tronChecksum,
      htail]
  · simp [List.length_drop, h65]

/-- C1 witness: the theorem applied to the sample 65-byte serialization
and the constant 32-byte hash instances. -/
theorem c1_tron_address_spec_witness :
    pubSerSample.length = 65 ∧
    (GenerateTronAddress hashConst32 hashConst32 pubSerSample =
        tronAddressSpec hashConst32 hashConst32 (pubSerSample.drop 1) ∧
      (pubSerSample.drop 1).length = 64) :=
  ⟨by simp [pubSerSample],
    c1_tron_address_spec hashConst32 hashConst32 pubSerSample
      (by simp [pubSerSample])⟩

/-- Helper: combined length of the digest tail and the checksum. -/
theorem tronAWC_tail_length (keccak256 sha256 : List Nat → List Nat)
    (hk32 : ∀ x, (keccak256 x).length = 32)
    (hs32 : ∀ x, (sha256 x).length = 32) (pubKeySer : List Nat) :
    ((keccak256 (pubKeySer.drop 1)).drop
        ((keccak256 (pubKeySer.drop 1)).length - 20) ++
      tronChecksum sha256 (tronAddressBytes keccak256 pubKeySer)).length = 24 := by
  rw [List.length_append, List.length_drop, hk32,
    tronChecksum_length sha256 hs32]

/-- Helper: the constant hash instance emits 32 bytes. -/
theorem hashConst32_length : ∀ x, (hashConst32 x).length = 32 := by
  intro x
  simp [hashConst32]

/-- Helper: the constant hash instance emits bytes below 256. -/
theorem hashConst32_bytes : ∀ x, ∀ b ∈ hashConst32 x, b < 256 := by
  intro x b hb
  simp [hashConst32, List.mem_replicate] at hb
  omega

/-- C7: whenever the Keccak-256 and SHA-256 primitives emit 32 bytes, the
string returned by GenerateTronAddress has the fixed length 34, its first
character is the character T forced by the version byte 0x41, and its
Base58 decoding is exactly 25 bytes (1 version byte, 20 digest bytes, 4
checksum bytes) led by 0x41. -/
theorem c7_address_format (keccak256 sha256 : List Nat → List Nat)
    (hk32 : ∀ x, (keccak256 x).length = 32)
    (hkB : ∀ x, ∀ b ∈ keccak256 x, b < 256)
    (hs32 : ∀ x, (sha256 x).length = 32)
    (hsB : ∀ x, ∀ b ∈ sha256 x, b < 256)
    (pubKeySer : List Nat) :
    (GenerateTronAddress keccak256 sha256 pubKeySer).data.length = 34 ∧
    (GenerateTronAddress keccak256 sha256 pubKeySer).data.head? = some 'T' ∧
    ∃ payload,
      base58Decode (GenerateTronAddress keccak256 sha256 pubKeySer) =
        some payload ∧
      payload.length = 25 ∧ payload.head? = some 65 := by
  have h24 := tronAWC_tail_length keccak256 sha256 hk32 hs32 pubKeySer
  have hB := tronAWC_bytes keccak256 sha256 hkB hsB pubKeySer
  have hall : ∀ b ∈ 65 :: ((keccak256 (pubKeySer.drop 1)).drop
      ((keccak256 (pubKeySer.drop 1)).length - 20) ++
      tronChecksum sha256 (tronAddressBytes keccak256 pubKeySer)), b < 256 := by
    intro b hb
    rcases List.mem_cons.1 hb with h | h
    · omega
    · exact hB b h
  unfold GenerateTronAddress
  rw [tronAWC_cons]
  exact ⟨(base58Encode_25_format _ h24 hB).1,
    (base58Encode_25_format _ h24 hB).2,
    ⟨_, base58Decode_encode 65 _ (by norm_num) hall,
      by rw [List.length_cons, h24], rfl⟩⟩

/-- C7 witness: the theorem applied to the constant 32-byte hash instances
and the sample public-key serialization. -/
theorem c7_address_format_witness :
    ((∀ x, (hashConst32 x).length = 32) ∧
      (∀ x, ∀ b ∈ hashConst32 x, b < 256)) ∧
    ((GenerateTronAddress hashConst32 hashConst32 pubSerSample).data.length = 34 ∧
      (GenerateTronAddress hashConst32 hashConst32 pubSerSample).data.head? =
        some 'T' ∧
      ∃ payload,
        base58Decode (GenerateTronAddress hashConst32 hashConst32 pubSerSample) =
          some payload ∧
        payload.length = 25 ∧ payload.head? = some 65) :=
  ⟨⟨hashConst32_length, hashConst32_bytes⟩,
    c7_address_format hashConst32 hashConst32 hashConst32_length
      hashConst32_bytes hashConst32_length hashConst32_bytes pubSerSample⟩

/-- C8: Base58-decoding the string returned by GenerateTronAddress and
recomputing the double SHA-256 checksum over the leading 21 decoded bytes
reproduces the trailing 4 decoded bytes exactly. -/
theorem c8_checksum_roundtrip (keccak256 sha256 : List Nat → List Nat)
    (hk32 : ∀ x, (keccak256 x).length = 32)
    (hkB : ∀ x, ∀ b ∈ keccak256 x, b < 256)
    (_hs32 : ∀ x, (sha256 x).length = 32)
    (hsB : ∀ x, ∀ b ∈ sha256 x, b < 256)
    (pubKeySer : List Nat) :
    ∃ payload,
      base58Decode (GenerateTronAddress keccak256 sha256 pubKeySer) =
        some payload ∧
      (sha256 (sha256 (payload.take 21))).take 4 = payload.drop 21 := by
  have h21 := tronAddressBytes_length keccak256 hk32 pubKeySer
  have hB := tronAWC_bytes keccak256 sha256 hkB hsB pubKeySer
  have hall : ∀ b ∈ 65 :: ((keccak256 (pubKeySer.drop 1)).drop
      ((keccak256 (pubKeySer.drop 1)).length - 20) ++
      tronChecksum sha256 (tronAddressBytes keccak256 pubKeySer)), b < 256 := by
    intro b hb
    rcases List.mem_cons.1 hb with h | h
    · omega
    · exact hB b h
  refine ⟨tronAddressBytes keccak256 pubKeySer ++
    tronChecksum sha256 (tronAddressBytes keccak256 pubKeySer), ?_, ?_⟩
  · unfold GenerateTronAddress
    rw [tronAWC_cons]
    exact base58Decode_encode 65 _ (by norm_num) hall
  · rw [List.take_left' h21, List.drop_left' h21]
    rfl

/-- C8 witness: the theorem applied to the constant 32-byte hash instances
and the sample public-key serialization. -/
theorem c8_checksum_roundtrip_witness :
    ((∀ x, (hashConst32 x).length = 32) ∧
      (∀ x, ∀ b ∈ hashConst32 x, b < 256)) ∧
    ∃ payload,
      base58Decode (GenerateTronAddress hashConst32 hashConst32 pubSerSample) =
        some payload ∧
      (hashConst32 (hashConst32 (payload.take 21))).take 4 = payload.drop 21 :=
  ⟨⟨hashConst32_length, hashConst32_bytes⟩,
    c8_checksum_roundtrip hashConst32 hashConst32 hashConst32_length
      hashConst32_bytes hashConst32_length hashConst32_bytes pubSerSample⟩

end HDWallet
